import Mathlib

/-
Verification of the retrieval-orchestration and conversational-response
engine of the Ai-Agent repository (src/main.py and src/vector.py).

The Python code is shallowly embedded: pure helpers become Lean functions
on String / List Char; real-valued timestamps and similarity scores become
rationals; every external fallible call (vector index, web fetch, language
model) becomes an oracle returning Except, and the try/except structure of
the source becomes explicit Except handling.  Python dictionaries that are
iterated in insertion order are embedded as association lists kept in
insertion order.
-/

/-! ## Python string primitives

Embeddings of the CPython string operations used by the code:
str.strip (ASCII whitespace suffices for every string the code handles),
str.lower, substring containment (the Python in operator), and the
character-class test of the regex \s. -/

/-- Whitespace test matching the characters Python str.strip and the regex
class \s remove from the ASCII range: space, tab, newline, vertical tab,
form feed, carriage return. -/
def isPySpace (c : Char) : Bool :=
  c == ' ' || c == '\t' || c == '\n' || c == '\x0b' || c == '\x0c' || c == '\r'

/-- Removal of trailing whitespace, the right half of Python str.strip. -/
def dropTrailing (l : List Char) : List Char :=
  (l.reverse.dropWhile isPySpace).reverse

/-- Embedding of Python str.strip on character lists: drop leading then
trailing whitespace. -/
def pyStrip (l : List Char) : List Char :=
  dropTrailing (l.dropWhile isPySpace)

/-- Embedding of Python str.strip on strings. -/
def pyStripStr (s : String) : String :=
  ⟨pyStrip s.data⟩

/-- Embedding of Python str.lower (the inputs the claims exercise are
ASCII, where Char.toLower agrees with CPython). -/
def pyLowerStr (s : String) : String :=
  ⟨s.data.map Char.toLower⟩

/-- Embedding of the Python expression needle in hay on strings. -/
def strContains (hay needle : String) : Bool :=
  hay.data.tails.any (fun t => needle.data.isPrefixOf t)

/-! ## main.py: sanitize_input (lines 129-131)

re.sub(r'[<>]', '', text).strip() — remove every angle bracket, then
strip whitespace. -/

/-- Embedding of sanitize_input from main.py: delete every < and >
character, then strip leading and trailing whitespace. -/
def sanitize_input (text : String) : String :=
  ⟨pyStrip (text.data.filter (fun c => ¬ (c == '<' || c == '>')))⟩

/-! ### Generic lemmas about the string primitives -/

theorem head?_dropWhile_false {p : Char → Bool} {l : List Char} {c : Char}
    (h : (l.dropWhile p).head? = some c) : p c = false := by
  induction l with
  | nil => simp [List.dropWhile] at h
  | cons a t ih =>
    by_cases hpa : p a
    · simp [List.dropWhile, hpa] at h
      exact ih h
    · simp [List.dropWhile, hpa] at h
      subst h
      exact Bool.not_eq_true _ ▸ (by simpa using hpa)

theorem dropWhile_eq_self_of_head? {p : Char → Bool} {l : List Char}
    (h : ∀ c, l.head? = some c → p c = false) : l.dropWhile p = l := by
  cases l with
  | nil => rfl
  | cons a t => simp [List.dropWhile, h a rfl]

theorem exists_prefix_dropWhile (p : Char → Bool) (l : List Char) :
    ∃ t, l = t ++ l.dropWhile p := by
  induction l with
  | nil => exact ⟨[], rfl⟩
  | cons a t ih =>
    by_cases hpa : p a
    · obtain ⟨u, hu⟩ := ih
      exact ⟨a :: u, by simp [List.dropWhile, hpa]; exact hu⟩
    · exact ⟨[], by simp [List.dropWhile, hpa]⟩

theorem mem_dropTrailing {l : List Char} {c : Char} (h : c ∈ dropTrailing l) :
    c ∈ l := by
  unfold dropTrailing at h
  rw [List.mem_reverse] at h
  have := (List.dropWhile_suffix isPySpace).subset h
  simpa using this

theorem mem_pyStrip {l : List Char} {c : Char} (h : c ∈ pyStrip l) : c ∈ l := by
  unfold pyStrip at h
  have h1 := mem_dropTrailing h
  exact (List.dropWhile_suffix isPySpace).subset h1

theorem pyStrip_head? {l : List Char} {c : Char}
    (h : (pyStrip l).head? = some c) : isPySpace c = false := by
  unfold pyStrip dropTrailing at h
  set z := l.dropWhile isPySpace with hz
  obtain ⟨t, ht⟩ := exists_prefix_dropWhile isPySpace z.reverse
  have hzdecomp : z = (z.reverse.dropWhile isPySpace).reverse ++ t.reverse := by
    conv_lhs => rw [← z.reverse_reverse, ht]
    simp
  have hne : (z.reverse.dropWhile isPySpace).reverse ≠ [] := by
    intro hnil
    rw [hnil] at h
    simp at h
  have hhead : z.head? = some c := by
    rw [hzdecomp, List.head?_append]
    rw [h]
    rfl
  have : z.head? = some c → isPySpace c = false := by
    rw [hz]
    exact fun hh => head?_dropWhile_false hh
  exact this hhead

theorem pyStrip_getLast? {l : List Char} {c : Char}
    (h : (pyStrip l).getLast? = some c) : isPySpace c = false := by
  unfold pyStrip dropTrailing at h
  rw [List.getLast?_reverse] at h
  exact head?_dropWhile_false h

theorem dropTrailing_eq_self_of_getLast? {l : List Char}
    (h : ∀ c, l.getLast? = some c → isPySpace c = false) :
    dropTrailing l = l := by
  unfold dropTrailing
  have : l.reverse.dropWhile isPySpace = l.reverse := by
    apply dropWhile_eq_self_of_head?
    intro c hc
    rw [List.head?_reverse] at hc
    exact h c hc
  rw [this, List.reverse_reverse]

theorem pyStrip_idem (l : List Char) : pyStrip (pyStrip l) = pyStrip l := by
  have h1 : (pyStrip l).dropWhile isPySpace = pyStrip l := by
    apply dropWhile_eq_self_of_head?
    intro c hc
    exact pyStrip_head? hc
  show dropTrailing ((pyStrip l).dropWhile isPySpace) = pyStrip l
  rw [h1]
  apply dropTrailing_eq_self_of_getLast?
  intro c hc
  exact pyStrip_getLast? hc

/-! ## main.py: canned responses and keyword sets (lines 74-89)

RESP is a Python dict iterated only by key lookup; it is embedded as an
association list over a sum of the two value shapes that occur (single
string, list of strings).  Note that the dict has no "decline" key. -/

def RESP_welcome : String := "🤖 Hello! I\x27m here 24/7—ask me anything."

def RESP_greeting_list : List String :=
  ["👋 Hi there!", "😊 Hey! What would you like to know?"]

def RESP_affirm : String := "👍 Great! What would you like help with?"

def RESP_unknown : String :=
  "😕 I\x27m sorry, I don\x27t have that info. Can I help you with something else?"

def RESP_exit : String := "👋 Goodbye!"

def RESP_error : String := "⚠️ Something went wrong—please try again."

def RESP_invalid_input : String := "⚠️ Please provide a valid question."

def RESP_rate_limit : String := "⚠️ Too many requests. Please wait a moment."

/-- Value shapes occurring in the RESP dict of main.py. -/
inductive RespVal
  | str : String → RespVal
  | strs : List String → RespVal
deriving DecidableEq

/-- Embedding of the RESP dict of main.py (lines 75-84), in source order. -/
def RESP : List (String × RespVal) :=
  [("welcome", RespVal.str RESP_welcome),
   ("greeting", RespVal.strs RESP_greeting_list),
   ("affirm", RespVal.str RESP_affirm),
   ("unknown", RespVal.str RESP_unknown),
   ("exit", RespVal.str RESP_exit),
   ("error", RespVal.str RESP_error),
   ("invalid_input", RespVal.str RESP_invalid_input),
   ("rate_limit", RespVal.str RESP_rate_limit)]

/-- Dict lookup on RESP; none models a Python KeyError. -/
def RESP_get (k : String) : Option RespVal :=
  (RESP.find? (fun e => e.1 == k)).map (fun e => e.2)

def GREETINGS : List String := ["hi", "hello", "hey", "yo", "greetings"]

def AFFIRMATIVES : List String := ["yes", "yep", "sure", "ok", "okay", "please"]

def DECLINES : List String := ["no", "nah", "nope", "stop"]

def BYES : List String := ["bye", "goodbye", "see ya", "later"]

def GRATITUDES : List String :=
  ["thanks", "thank you", "thx", "thank u", "ty", "awsome"]

/-! ## main.py: rate limiter (lines 92, 107-127)

is_rate_limited is embedded per user: the global request_history dict keys
are independent, and the probabilistic cleanup_old_requests sweep applies
to a user's own list exactly the 60-second filter that is unconditionally
re-applied to that list on its next call, so it does not change the
per-user semantics.  Timestamps are integers standing for whole seconds
since an epoch, the resolution at which every specified scenario works;
the window logic uses only the ordering of time differences. -/

def RATE_LIMIT : ℕ := 10

/-- Embedding of is_rate_limited for one user with an explicit limit:
drop timestamps 60 seconds old or older, reject when the survivor count
already reaches the limit, otherwise record the current timestamp.
Returns (limited?, new history). -/
def is_rate_limitedWith (limit : ℕ) (now : ℤ) (hist : List ℤ) :
    Bool × List ℤ :=
  let recent := hist.filter (fun t => decide (now - t < 60))
  if limit ≤ recent.length then (true, recent)
  else (false, recent ++ [now])

/-- Embedding of is_rate_limited from main.py with its configured limit. -/
def is_rate_limited (now : ℤ) (hist : List ℤ) : Bool × List ℤ :=
  is_rate_limitedWith RATE_LIMIT now hist

/-- Result of a sequence of is_rate_limited calls at the given times:
the per-call limited flags and the final history. -/
def rateCalls (limit : ℕ) : List ℤ → List ℤ → List Bool × List ℤ
  | [], hist => ([], hist)
  | t :: ts, hist =>
    let r := is_rate_limitedWith limit t hist
    let rest := rateCalls limit ts r.2
    (r.1 :: rest.1, rest.2)

/-! ## main.py: truncate_to_two_sentences (lines 133-137)

re.split(r"(?<=[\.\?\!])\s+", text.strip()) splits at each maximal
whitespace run whose immediately preceding character is a sentence-ending
punctuation mark; the first two pieces are joined with a single space and
stripped.  The lru_cache decorator is semantically transparent for a pure
function and is not modelled. -/

def SENT_PUNCT : List Char := ['.', '?', '!']

/-- Test of the character (if any) most recently added to the current
piece: true when it is sentence-ending punctuation. -/
def isSentPunct? : Option Char → Bool
  | some c => SENT_PUNCT.contains c
  | none => false

/-- Character-by-character embedding of the regex split: acc is the
current piece reversed, and the Bool records whether a delimiter
whitespace run is being consumed.  A whitespace character opens a
delimiter exactly when the previous character was sentence punctuation,
matching the lookbehind (?<=[.?!]) on a maximal \s+ run. -/
def splitSentencesAux : List Char → List Char → Bool → List (List Char)
  | [], acc, _ => [acc.reverse]
  | c :: rest, acc, false =>
    if isPySpace c && isSentPunct? acc.head? then
      acc.reverse :: splitSentencesAux rest [] true
    else
      splitSentencesAux rest (c :: acc) false
  | c :: rest, acc, true =>
    if isPySpace c then splitSentencesAux rest acc true
    else splitSentencesAux rest [c] false

/-- Embedding of truncate_to_two_sentences from main.py. -/
def truncate_to_two_sentences (text : String) : String :=
  let parts := splitSentencesAux (pyStrip text.data) [] false
  ⟨pyStrip (List.intercalate [' '] (parts.take 2))⟩

/-! ## main.py: intent classification (lines 162-175)

The interrogative test is re.match(r'^(who|what|where|when|why|how)\\b',
lower): inside the raw string the two characters backslash backslash form
the regex escape for one literal backslash, so the pattern requires the
interrogative word to be followed by a literal backslash and the letter b.
The canned checks that follow use exact set membership except the
gratitude check, which is a substring test. -/

def INTERROGATIVES : List String := ["who", "what", "where", "when", "why", "how"]

/-- Embedding of the re.match test on the lowered question: some
interrogative word followed by the two characters backslash, b is a
prefix of the text. -/
def interrogMatch (lower : String) : Bool :=
  INTERROGATIVES.any (fun w => (w ++ "\\b").data.isPrefixOf lower.data)

/-- Intent decided by the if/elif chain of process_question; factual means
the code falls through to retrieval-augmented generation. -/
inductive Intent
  | factual | bye | decline | gratitude | affirm | greeting
deriving DecidableEq

/-- Embedding of the classification chain of process_question
(main.py lines 162-175), in source order. -/
def classifyIntent (lower : String) : Intent :=
  if interrogMatch lower then Intent.factual
  else if BYES.contains lower then Intent.bye
  else if DECLINES.contains lower then Intent.decline
  else if GRATITUDES.any (fun g => strContains lower g) then Intent.gratitude
  else if AFFIRMATIVES.contains lower then Intent.affirm
  else if GREETINGS.contains lower then Intent.greeting
  else Intent.factual

/-! ## vector.py: configuration (lines 22-32) and retrieval data -/

def MIN_SCORE : ℚ := mkRat 65 100

def TOP_K : ℕ := 3

def CACHE_TTL : ℤ := 3600

def MAX_CACHE_SIZE : ℕ := 1000

/-- Embedding of a langchain Document as used by the retrieval path:
its page content and the source name read from its metadata. -/
structure Doc where
  page_content : String
  source : String
deriving DecidableEq

/-- Parsed web search result, the dict built in search_web. -/
structure SearchResult where
  title : String
  snippet : String
  url : String
deriving DecidableEq

/-- Abstract Python exception. -/
inductive PyErr
  | exn
deriving DecidableEq

/-- Oracles for the external collaborators and ambient state of one call:
the rate-limiter verdict, the vector-store count and similarity search,
the web fetch-and-parse, the generation chain, and the index
random.choice picks among the greeting replies.  Each fallible
collaborator returns Except so that an arbitrary environment can raise at
any of the places the source wraps in try/except. -/
structure Env where
  limited : Bool
  count : ℕ
  simSearch : String → ℕ → Except PyErr (List (Doc × ℚ))
  fetchResults : String → ℕ → Except PyErr (List SearchResult)
  llm : String → Except PyErr String
  greet : ℕ

/-! ## vector.py: get_snippets (lines 270-289) -/

/-- Embedding of the collection loop of get_snippets: append each
candidate whose score passes MIN_SCORE and break as soon as kEff passing
documents have been collected. -/
def collectGo (kEff : ℕ) : List (Doc × ℚ) → List Doc → List Doc
  | [], acc => acc
  | (d, s) :: rest, acc =>
    if MIN_SCORE ≤ s then
      if kEff ≤ acc.length + 1 then acc ++ [d]
      else collectGo kEff rest (acc ++ [d])
    else collectGo kEff rest acc

/-- Embedding of get_snippets from vector.py: request
k_eff = min(k, collection count) candidates, filter by score with the
early break, and convert any exception of the try block to an empty
list.  The lru_cache decorator is semantically transparent for a pure
function and is not modelled. -/
def get_snippets (env : Env) (question : String) (k : ℕ) : List Doc :=
  match env.simSearch question (min k env.count) with
  | Except.ok results => collectGo (min k env.count) results []
  | Except.error _ => []

/-! ## vector.py: search_web (lines 237-268) and get_snippets_str
(lines 291-308) -/

/-- Embedding of search_web: the HTTP fetch and HTML parsing are the
oracle; the source slices the parsed result nodes to num_results and
converts any exception to an empty list. -/
def search_web (env : Env) (query : String) (numResults : ℕ) :
    List SearchResult :=
  match env.fetchResults query numResults with
  | Except.ok rs => rs.take numResults
  | Except.error _ => []

/-- Rendering of one web result inside get_snippets_str. -/
def formatWebResult (r : SearchResult) : String :=
  "📌 " ++ r.title ++ "\n" ++ r.snippet ++ "\n🔗 " ++ r.url

def WEB_RESOURCES_HEADER : String :=
  "I couldn\x27t find that in my local data, but here are some relevant resources:"

def NO_INFO_MSG : String :=
  "I couldn\x27t find relevant information in my local data or on the web. Could you please rephrase your question?"

/-- Embedding of get_snippets_str from vector.py. -/
def get_snippets_str (env : Env) (question : String) (k : ℕ) : String :=
  let docs := get_snippets env question k
  if docs.isEmpty then
    let webResults := search_web env question 3
    if webResults.isEmpty then NO_INFO_MSG
    else
      String.intercalate "\n\n" (WEB_RESOURCES_HEADER :: webResults.map formatWebResult)
  else
    String.intercalate "\n\n"
      (docs.map (fun d => "From " ++ d.source ++ ":\n" ++ d.page_content))

/-! ## vector.py: embedding cache (lines 56-81)

The embedding_cache dict maps text to (timestamp, vector); a Python dict
preserves insertion order and an overwrite keeps the key position, so the
cache is embedded as an association list in insertion order.  Timestamps
are integer seconds, vector entries rationals.  Python sorted is stable; insertionSort on the timestamp order is
too, and only sortedness of the already-ordered input is used here. -/

abbrev EmbVec := List ℚ

abbrev EmbCache := List (String × ℤ × EmbVec)

/-- Dict lookup in the embedding cache. -/
def cacheFind (c : EmbCache) (text : String) : Option (ℤ × EmbVec) :=
  (c.find? (fun e => e.1 == text)).map (fun e => e.2)

/-- Timestamp order used by cleanup_cache, the key=lambda x: x[1][0]
of the source. -/
def tsLE (a b : String × ℤ × EmbVec) : Prop := a.2.1 ≤ b.2.1

instance : DecidableRel tsLE := fun a b =>
  inferInstanceAs (Decidable (a.2.1 ≤ b.2.1))

/-- Embedding of cleanup_cache with an explicit maximum size: when over
capacity, sort the entries by timestamp and delete the keys of the
oldest surplus entries. -/
def cleanup_cacheWith (maxSize : ℕ) (c : EmbCache) : EmbCache :=
  if maxSize < c.length then
    let sortedItems := c.insertionSort tsLE
    let removeKeys := (sortedItems.take (c.length - maxSize)).map (fun e => e.1)
    c.filter (fun e => ¬ removeKeys.contains e.1)
  else c

/-- Embedding of cleanup_cache from vector.py with its configured size. -/
def cleanup_cache (c : EmbCache) : EmbCache :=
  cleanup_cacheWith MAX_CACHE_SIZE c

/-- Embedding of the Python dict assignment cache[text] = (now, emb):
overwrite in place when the key exists, append otherwise. -/
def cacheSet (c : EmbCache) (text : String) (ts : ℤ) (emb : EmbVec) :
    EmbCache :=
  if c.any (fun e => e.1 == text) then
    c.map (fun e => if e.1 == text then (text, ts, emb) else e)
  else c ++ [(text, ts, emb)]

/-- Embedding of get_cached_embedding from vector.py: serve an entry only
when strictly younger than the TTL, delete an expired entry on access.
Returns the optional hit together with the cache after the access. -/
def get_cached_embedding (now : ℤ) (c : EmbCache) (text : String) :
    Option EmbVec × EmbCache :=
  match cacheFind c text with
  | some (ts, emb) =>
    if now - ts < CACHE_TTL then (some emb, c)
    else (none, c.eraseP (fun e => e.1 == text))
  | none => (none, c)

/-- Embedding of cache_embedding with an explicit maximum size: insert or
overwrite with the current timestamp, then clean up. -/
def cache_embeddingWith (maxSize : ℕ) (now : ℤ) (c : EmbCache)
    (text : String) (emb : EmbVec) : EmbCache :=
  cleanup_cacheWith maxSize (cacheSet c text now emb)

/-- Embedding of cache_embedding from vector.py with its configured size. -/
def cache_embedding (now : ℤ) (c : EmbCache) (text : String) (emb : EmbVec) :
    EmbCache :=
  cache_embeddingWith MAX_CACHE_SIZE now c text emb

/-- Folding cache_embeddingWith over a list of (timestamp, text, vector)
insertions. -/
def cacheInsertSeq (maxSize : ℕ) (items : List (ℤ × String × EmbVec))
    (c : EmbCache) : EmbCache :=
  items.foldl (fun acc it => cache_embeddingWith maxSize it.1 acc it.2.1 it.2.2) c

/-! ## main.py: process_question (lines 142-205)

The body of the outer try is embedded as an Except-valued computation
processBody; process_question is the outer except handler converting any
escaping exception to the error canned response.  String-valued RESP
lookups on keys that exist are resolved to their constants; the lookups
whose outcome is in question (decline, greeting) go through RESP_get. -/

/-- Embedding of the hallucination test
llm_out.lower().startswith(("i'm sorry", "i don't know", "i dont know")). -/
def startsWithIgnorance (s : String) : Bool :=
  let ls := pyLowerStr s
  ["i\x27m sorry", "i don\x27t know", "i dont know"].any
    (fun p => p.data.isPrefixOf ls.data)

def WEB_FALLBACK_NOTE : String :=
  "I couldn\x27t find that in my data, but here are some resources that might help you:\n\n"

/-- Embedding of the retrieval-and-generation tail of process_question
(main.py lines 177-201), reached when no canned intent fires; q is the
sanitized question.  Every branch, including the inner except handler for
the chain call, produces a value, so this function never raises. -/
def factualPath (env : Env) (q : String) : Except PyErr String :=
  let docs := get_snippets env q TOP_K
  if docs.isEmpty then
    let webFallback := get_snippets_str env q TOP_K
    if strContains webFallback "http" then
      Except.ok (WEB_FALLBACK_NOTE ++ webFallback)
    else Except.ok RESP_unknown
  else
    match env.llm q with
    | Except.error _ => Except.ok RESP_error
    | Except.ok out =>
      let llmOut := pyStripStr out
      if startsWithIgnorance llmOut then Except.ok RESP_unknown
      else Except.ok (truncate_to_two_sentences llmOut)

/-- Embedding of the body of the outer try of process_question.  The
decline branch looks up the missing RESP key "decline" and therefore
raises, mirroring the KeyError of the source. -/
def processBody (env : Env) (q : String) : Except PyErr String :=
  if q = "" ∨ 500 < q.length then Except.ok RESP_invalid_input
  else if env.limited then Except.ok RESP_rate_limit
  else
    let q1 := sanitize_input q
    let lower := pyStripStr (pyLowerStr q1)
    match classifyIntent lower with
    | Intent.bye => Except.ok RESP_exit
    | Intent.decline =>
      match RESP_get "decline" with
      | some (RespVal.str s) => Except.ok s
      | _ => Except.error PyErr.exn
    | Intent.gratitude => Except.ok "You\x27re welcome! 😊"
    | Intent.affirm => Except.ok RESP_affirm
    | Intent.greeting =>
      match RESP_get "greeting" with
      | some (RespVal.strs l) => Except.ok (l.getD env.greet "")
      | _ => Except.error PyErr.exn
    | Intent.factual => factualPath env q1

/-- Embedding of process_question from main.py: the outer except handler
converts any exception escaping the body to the error canned response. -/
def process_question (env : Env) (q : String) (_userId : String) : String :=
  match processBody env q with
  | Except.ok s => s
  | Except.error _ => RESP_error

/-- Result of the factual path after the outer handler; used to state
that a request reaches retrieval. -/
def factualResult (env : Env) (q : String) : String :=
  match factualPath env q with
  | Except.ok s => s
  | Except.error _ => RESP_error

/-! ## Concrete environments used by counterexamples and witnesses -/

/-- Environment in which every external collaborator raises. -/
def envAllFail : Env where
  limited := false
  count := 0
  simSearch := fun _ _ => Except.error PyErr.exn
  fetchResults := fun _ _ => Except.error PyErr.exn
  llm := fun _ => Except.error PyErr.exn
  greet := 0

/-- Environment returning the five candidates with scores
0.9, 0.7, 0.64, 0.5, 0.8 posited by the retrieval-filtering scenario. -/
def envScores : Env where
  limited := false
  count := 5
  simSearch := fun _ _ => Except.ok
    [(⟨"a", "s"⟩, mkRat 9 10), (⟨"b", "s"⟩, mkRat 7 10),
     (⟨"c", "s"⟩, mkRat 64 100), (⟨"d", "s"⟩, mkRat 5 10),
     (⟨"e", "s"⟩, mkRat 8 10)]
  fetchResults := fun _ _ => Except.error PyErr.exn
  llm := fun _ => Except.error PyErr.exn
  greet := 0

/-- Environment whose index returns two passing candidates with identical
content. -/
def envDup : Env where
  limited := false
  count := 2
  simSearch := fun _ _ => Except.ok
    [(⟨"x", "s"⟩, mkRat 9 10), (⟨"x", "s"⟩, mkRat 8 10)]
  fetchResults := fun _ _ => Except.error PyErr.exn
  llm := fun _ => Except.error PyErr.exn
  greet := 0

/-- Environment with one good retrieval candidate and a raising
generation model. -/
def envLlmFail : Env where
  limited := false
  count := 3
  simSearch := fun _ _ => Except.ok [(⟨"refund text", "s"⟩, mkRat 8 10)]
  fetchResults := fun _ _ => Except.error PyErr.exn
  llm := fun _ => Except.error PyErr.exn
  greet := 0

/-! ## Claim C9 -/

/-- C9: sanitize_input is idempotent and its output is clean — the result
contains no angle brackets, starts and ends with no whitespace character,
and sanitizing twice equals sanitizing once. -/
theorem sanitize_input_clean_and_idem (x : String) :
    (∀ c ∈ (sanitize_input x).data, c ≠ '<' ∧ c ≠ '>') ∧
    (∀ c, (sanitize_input x).data.head? = some c → isPySpace c = false) ∧
    (∀ c, (sanitize_input x).data.getLast? = some c → isPySpace c = false) ∧
    sanitize_input (sanitize_input x) = sanitize_input x := by
  have hdata : (sanitize_input x).data
      = pyStrip (x.data.filter (fun c => ¬ (c == '<' || c == '>'))) := rfl
  refine ⟨?_, ?_, ?_, ?_⟩
  · intro c hc
    rw [hdata] at hc
    have hc2 := mem_pyStrip hc
    have hpred := List.of_mem_filter hc2
    constructor <;> intro h <;> rw [h] at hpred <;> simp at hpred
  · intro c hc
    rw [hdata] at hc
    exact pyStrip_head? hc
  · intro c hc
    rw [hdata] at hc
    exact pyStrip_getLast? hc
  · show (⟨pyStrip ((sanitize_input x).data.filter
      (fun c => ¬ (c == '<' || c == '>')))⟩ : String) = sanitize_input x
    have hfilter : (sanitize_input x).data.filter (fun c => ¬ (c == '<' || c == '>'))
        = (sanitize_input x).data := by
      apply List.filter_eq_self.mpr
      intro a ha
      rw [hdata] at ha
      have h3 := mem_pyStrip ha
      exact (List.mem_filter.mp h3).2
    rw [hfilter, hdata, pyStrip_idem]
    rfl

/-- Witness for C9 at the concrete input consisting of whitespace, angle
brackets and one letter. -/
theorem sanitize_input_clean_and_idem_witness :
    sanitize_input (sanitize_input " <a> ") = sanitize_input " <a> " ∧
    isPySpace 'a' = false :=
  ⟨(sanitize_input_clean_and_idem " <a> ").2.2.2,
   (sanitize_input_clean_and_idem " <a> ").2.1 'a' (by decide)⟩

/-! ## Claim C7 -/

theorem splitSentencesAux_no_punct :
    ∀ (l acc : List Char), (∀ c ∈ acc, SENT_PUNCT.contains c = false) →
      (∀ c ∈ l, SENT_PUNCT.contains c = false) →
      splitSentencesAux l acc false = [acc.reverse ++ l] := by
  intro l
  induction l with
  | nil =>
    intro acc _ _
    simp [splitSentencesAux]
  | cons c rest ih =>
    intro acc hacc hl
    have hcond : isSentPunct? acc.head? = false := by
      cases hh : acc.head? with
      | none => rfl
      | some a =>
        have ha : a ∈ acc := by
          cases acc with
          | nil => simp at hh
          | cons b t =>
            simp at hh
            subst hh
            exact List.mem_cons_self _ _
        simpa [isSentPunct?] using hacc a ha
    have : splitSentencesAux (c :: rest) acc false
        = splitSentencesAux rest (c :: acc) false := by
      simp [splitSentencesAux, hcond]
    rw [this, ih (c :: acc)]
    · simp
    · intro d hd
      rcases List.mem_cons.mp hd with h | h
      · rw [h]
        exact hl c (List.mem_cons_self c rest)
      · exact hacc d h
    · intro d hd
      exact hl d (List.mem_cons.mpr (Or.inr hd))

theorem intercalate_singleton (sep : List Char) (x : List Char) :
    List.intercalate sep [x] = x := by
  simp [List.intercalate]

/-- Counterexample to C7 as stated: the input consisting of a letter
surrounded by spaces contains no sentence-ending punctuation, yet
truncate_to_two_sentences does not return it unchanged. -/
theorem truncate_strips_counterexample :
    ((" A ").data.all (fun c => ¬ SENT_PUNCT.contains c)) = true ∧
    truncate_to_two_sentences " A " ≠ " A " := by
  constructor
  · decide
  · decide

/-- C7 (amended): truncate_to_two_sentences splits on sentence-ending
punctuation followed by whitespace and joins the first two pieces, so
that the three-sentence example collapses to its first two sentences; and
for any text containing no sentence-ending punctuation the result is the
input stripped of leading and trailing whitespace (hence unchanged
exactly when the input carries no such whitespace). -/
theorem truncate_two_sentences_spec :
    truncate_to_two_sentences "A. B. C." = "A. B." ∧
    ∀ text : String, (∀ c ∈ text.data, SENT_PUNCT.contains c = false) →
      truncate_to_two_sentences text = pyStripStr text := by
  constructor
  · decide
  · intro text hpunct
    unfold truncate_to_two_sentences
    have hnp : ∀ c ∈ pyStrip text.data, SENT_PUNCT.contains c = false :=
      fun c hc => hpunct c (mem_pyStrip hc)
    rw [splitSentencesAux_no_punct (pyStrip text.data) [] (by simp) hnp]
    show (⟨pyStrip (List.intercalate [' '] [[].reverse ++ pyStrip text.data])⟩ : String)
      = pyStripStr text
    rw [List.reverse_nil, List.nil_append, intercalate_singleton, pyStrip_idem]
    rfl

/-- Witness for C7 at a punctuation-free input. -/
theorem truncate_two_sentences_spec_witness :
    truncate_to_two_sentences "Hello world" = pyStripStr "Hello world" :=
  truncate_two_sentences_spec.2 "Hello world" (by decide)

/-! ## Claim C2 -/

/-- Counterexample to C2 as stated: the inputs "hi there" (claimed
Greeting) and "what thanks" (claimed FactualQuestion by the interrogative
override) classify as factual and gratitude respectively. -/
theorem classify_intent_counterexample :
    classifyIntent "hi there" = Intent.factual ∧
    classifyIntent "what thanks" = Intent.gratitude ∧
    Intent.factual ≠ Intent.greeting ∧ Intent.gratitude ≠ Intent.factual := by
  refine ⟨by decide, by decide, by decide, by decide⟩

/-- C2 (amended): the interrogative test of the source compiles the raw
pattern ^(who|what|where|when|why|how)\\b, whose double backslash is one
literal backslash character, so it can only match a question containing a
backslash; classification therefore falls through to the canned checks,
which use exact set membership except the substring-based gratitude
check.  Consequently "why is the sky hi" and "hi there" both classify as
factual (neither is an exact member of any canned set and neither
contains a gratitude token), "thanks, bye" classifies as gratitude, and
in general any question failing the interrogative test and the exact
farewell and decline memberships that contains a gratitude token yields
gratitude. -/
theorem classify_intent_amended :
    (∀ lower : String, interrogMatch lower = true → '\\' ∈ lower.data) ∧
    classifyIntent "why is the sky hi" = Intent.factual ∧
    classifyIntent "hi there" = Intent.factual ∧
    classifyIntent "thanks, bye" = Intent.gratitude ∧
    (∀ lower : String, interrogMatch lower = false →
      BYES.contains lower = false → DECLINES.contains lower = false →
      GRATITUDES.any (fun g => strContains lower g) = true →
      classifyIntent lower = Intent.gratitude) := by
  refine ⟨?_, by decide, by decide, by decide, ?_⟩
  · intro lower h
    unfold interrogMatch at h
    obtain ⟨w, _, hw⟩ := List.any_eq_true.mp h
    have hpre : (w ++ "\\b").data <+: lower.data := List.isPrefixOf_iff_prefix.mp hw
    apply hpre.subset
    rw [String.data_append]
    exact List.mem_append_right _ (by decide)
  · intro lower h1 h2 h3 h4
    unfold classifyIntent
    rw [h1, h2, h3, h4]
    simp

/-- Witness for C2: the general conjuncts applied at the concrete inputs
that a backslash question matches the interrogative pattern and that
"thanks, bye" falls to the gratitude branch. -/
theorem classify_intent_amended_witness :
    '\\' ∈ ("what\\bis up").data ∧
    classifyIntent "thx anyway" = Intent.gratitude :=
  ⟨classify_intent_amended.1 "what\\bis up" (by decide),
   classify_intent_amended.2.2.2.2 "thx anyway" (by decide) (by decide)
     (by decide) (by decide)⟩

/-! ## Claim C3 -/

/-- C3 (behavior at the decline fast path): the RESP dict has no
"decline" key, so for any environment that is not rate limited the
question "no" — an exact member of the decline set — makes
process_question raise a KeyError inside the decline branch, which the
outer handler converts to the generic error response rather than a
decline canned reply. -/
theorem process_question_decline_keyerror :
    RESP_get "decline" = none ∧
    ∀ (env : Env) (uid : String), env.limited = false →
      process_question env "no" uid = RESP_error := by
  constructor
  · decide
  · intro env uid hlim
    have hcl : classifyIntent (pyStripStr (pyLowerStr (sanitize_input "no")))
        = Intent.decline := by decide
    have hresp : RESP_get "decline" = none := by decide
    unfold process_question processBody
    rw [if_neg (by decide), hlim]
    simp only [Bool.false_eq_true, if_false, hcl, hresp]

/-- Witness for C3 at a concrete environment. -/
theorem process_question_decline_keyerror_witness :
    process_question envAllFail "no" "user" = RESP_error :=
  process_question_decline_keyerror.2 envAllFail "user" rfl

/-! ## Claims C5 and C6: the get_snippets collection loop -/

theorem collectGo_eq :
    ∀ (results : List (Doc × ℚ)) (kEff : ℕ) (acc : List Doc),
      acc.length < kEff →
      collectGo kEff results acc
        = acc ++ ((results.filter (fun p => decide (MIN_SCORE ≤ p.2))).map
            Prod.fst).take (kEff - acc.length) := by
  intro results
  induction results with
  | nil => intro kEff acc _; simp [collectGo]
  | cons p rest ih =>
    intro kEff acc hlt
    obtain ⟨d, s⟩ := p
    by_cases hs : MIN_SCORE ≤ s
    · have hfil : ((d, s) :: rest).filter (fun p => decide (MIN_SCORE ≤ p.2))
          = (d, s) :: rest.filter (fun p => decide (MIN_SCORE ≤ p.2)) := by
        simp [List.filter, hs]
      rw [hfil]
      by_cases hbreak : kEff ≤ acc.length + 1
      · have hk : kEff = acc.length + 1 := le_antisymm hbreak hlt
        have : collectGo kEff ((d, s) :: rest) acc = acc ++ [d] := by
          simp [collectGo, hs, hbreak]
        rw [this, hk]
        simp
      · have hrec : collectGo kEff ((d, s) :: rest) acc
            = collectGo kEff rest (acc ++ [d]) := by
          simp [collectGo, hs, hbreak]
        rw [hrec, ih kEff (acc ++ [d]) (by simp; omega)]
        have htake : (kEff - acc.length)
            = (kEff - (acc ++ [d]).length) + 1 := by simp; omega
        rw [htake]
        simp [List.take_succ_cons]
    · have hfil : ((d, s) :: rest).filter (fun p => decide (MIN_SCORE ≤ p.2))
          = rest.filter (fun p => decide (MIN_SCORE ≤ p.2)) := by
        simp [List.filter, hs]
      have : collectGo kEff ((d, s) :: rest) acc = collectGo kEff rest acc := by
        simp [collectGo, hs]
      rw [this, hfil, ih kEff acc hlt]

theorem get_snippets_ok {env : Env} {question : String} {k : ℕ}
    {results : List (Doc × ℚ)}
    (h : env.simSearch question (min k env.count) = Except.ok results)
    (hpos : 0 < min k env.count) :
    get_snippets env question k
      = ((results.filter (fun p => decide (MIN_SCORE ≤ p.2))).map
          Prod.fst).take (min k env.count) := by
  unfold get_snippets
  rw [h]
  have := collectGo_eq results (min k env.count) [] (by simpa using hpos)
  simpa using this

/-! ## Claim C5 -/

/-- Counterexample to C5 as stated: on the candidate scores
0.9, 0.7, 0.64, 0.5, 0.8 the retained documents appear in the original
candidate order a, b, e — not in descending-score order a, e, b. -/
theorem get_snippets_order_counterexample :
    get_snippets envScores "q" 5
      = [⟨"a", "s"⟩, ⟨"b", "s"⟩, ⟨"e", "s"⟩] ∧
    ([⟨"a", "s"⟩, ⟨"b", "s"⟩, ⟨"e", "s"⟩] : List Doc)
      ≠ [⟨"a", "s"⟩, ⟨"e", "s"⟩, ⟨"b", "s"⟩] := by
  constructor
  · decide
  · decide

/-- C5 (amended): get_snippets requests min(k, collection count)
candidates, removes every candidate whose score is below MIN_SCORE = 0.65
and keeps the survivors in the original candidate order, truncated to the
requested count; on the posited scores 0.9, 0.7, 0.64, 0.5, 0.8 exactly
the 0.9, 0.7 and 0.8 entries survive, in that candidate order. -/
theorem get_snippets_filter_spec :
    (∀ (env : Env) (question : String) (k : ℕ) (results : List (Doc × ℚ)),
      env.simSearch question (min k env.count) = Except.ok results →
      0 < min k env.count →
      get_snippets env question k
        = ((results.filter (fun p => decide (MIN_SCORE ≤ p.2))).map
            Prod.fst).take (min k env.count)) ∧
    get_snippets envScores "q" 5 = [⟨"a", "s"⟩, ⟨"b", "s"⟩, ⟨"e", "s"⟩] := by
  constructor
  · intro env question k results h hpos
    exact get_snippets_ok h hpos
  · decide

/-- Witness for C5: the general conjunct applied to the concrete
five-candidate environment. -/
theorem get_snippets_filter_spec_witness :
    get_snippets envScores "q" 5
      = ((([(⟨"a", "s"⟩, mkRat 9 10), (⟨"b", "s"⟩, mkRat 7 10),
           (⟨"c", "s"⟩, mkRat 64 100), (⟨"d", "s"⟩, mkRat 5 10),
           (⟨"e", "s"⟩, mkRat 8 10)] : List (Doc × ℚ)).filter
             (fun p => decide (MIN_SCORE ≤ p.2))).map Prod.fst).take
          (min 5 envScores.count) :=
  get_snippets_filter_spec.1 envScores "q" 5
    [(⟨"a", "s"⟩, mkRat 9 10), (⟨"b", "s"⟩, mkRat 7 10),
     (⟨"c", "s"⟩, mkRat 64 100), (⟨"d", "s"⟩, mkRat 5 10),
     (⟨"e", "s"⟩, mkRat 8 10)] rfl (by decide)

/-! ## Claim C6 -/

/-- Counterexample to C6: two passing candidates share the content x and
get_snippets returns both, so the returned list is not duplicate-free. -/
theorem get_snippets_dup_counterexample :
    (get_snippets envDup "q" 2).map (fun d => d.page_content) = ["x", "x"] ∧
    ¬ (["x", "x"] : List String).Nodup := by
  constructor
  · decide
  · decide

/-- C6 (amended): get_snippets performs no deduplication — it returns the
score-passing candidates in candidate order, truncated to
min(k, collection count), retaining duplicate contents; the loop stops
once that many passing results are collected or the candidates are
exhausted, so the result length is the smaller of the requested count and
the number of passing candidates. -/
theorem get_snippets_no_dedup :
    ((get_snippets envDup "q" 2).map (fun d => d.page_content) = ["x", "x"]) ∧
    (∀ (env : Env) (question : String) (k : ℕ) (results : List (Doc × ℚ)),
      env.simSearch question (min k env.count) = Except.ok results →
      0 < min k env.count →
      (get_snippets env question k).length
        = min (min k env.count)
            (results.filter (fun p => decide (MIN_SCORE ≤ p.2))).length) := by
  constructor
  · decide
  · intro env question k results h hpos
    rw [get_snippets_ok h hpos]
    simp [List.length_take, Nat.min_comm]

/-- Witness for C6: the stopping rule applied to the duplicate-content
environment. -/
theorem get_snippets_no_dedup_witness :
    (get_snippets envDup "q" 2).length = min (min 2 envDup.count)
      (([(⟨"x", "s"⟩, mkRat 9 10), (⟨"x", "s"⟩, mkRat 8 10)]
        : List (Doc × ℚ)).filter (fun p => decide (MIN_SCORE ≤ p.2))).length :=
  get_snippets_no_dedup.2 envDup "q" 2
    [(⟨"x", "s"⟩, mkRat 9 10), (⟨"x", "s"⟩, mkRat 8 10)] rfl (by decide)

/-! ## Claim C1 -/

theorem processBody_factual {env : Env} {q : String}
    (hv : ¬ (q = "" ∨ 500 < q.length)) (hlim : env.limited = false)
    (hcl : classifyIntent (pyStripStr (pyLowerStr (sanitize_input q)))
      = Intent.factual) :
    processBody env q = factualPath env (sanitize_input q) := by
  unfold processBody
  rw [if_neg hv, hlim]
  simp only [Bool.false_eq_true, if_false, hcl]

/-- Counterexample to C1 as stated: in the environment where every
collaborator raises, the exception raised during retrieval is swallowed
inside get_snippets, and the factual question degrades to the unknown
canned response — not to the canonical error canned response the claim
requires for retrieval exceptions. -/
theorem process_question_retrieval_exception_counterexample :
    process_question envAllFail "tell me" "u" = RESP_unknown ∧
    RESP_unknown ≠ RESP_error := by
  constructor
  · decide
  · decide

/-- C1 (amended): no exception escapes process_question.  A web-fetch
failure is converted to an empty result list inside search_web; any
exception escaping the body is converted to the error canned response at
the orchestrator boundary; a generation failure is caught by the inner
handler and becomes the error canned response; and a retrieval failure is
caught inside get_snippets and converted to an empty document list, so
that when the web fallback also fails the call degrades to the unknown
canned response rather than raising or producing the error response. -/
theorem process_question_error_containment :
    (∀ (env : Env) (query : String) (n : ℕ) (e : PyErr),
      env.fetchResults query n = Except.error e → search_web env query n = []) ∧
    (∀ (env : Env) (q uid : String) (e : PyErr),
      processBody env q = Except.error e →
      process_question env q uid = RESP_error) ∧
    (∀ (env : Env) (q uid : String),
      ¬ (q = "" ∨ 500 < q.length) → env.limited = false →
      classifyIntent (pyStripStr (pyLowerStr (sanitize_input q)))
        = Intent.factual →
      get_snippets env (sanitize_input q) TOP_K ≠ [] →
      (∃ e, env.llm (sanitize_input q) = Except.error e) →
      process_question env q uid = RESP_error) ∧
    (∀ (env : Env) (q uid : String) (e1 e2 : PyErr),
      ¬ (q = "" ∨ 500 < q.length) → env.limited = false →
      classifyIntent (pyStripStr (pyLowerStr (sanitize_input q)))
        = Intent.factual →
      env.simSearch (sanitize_input q) (min TOP_K env.count)
        = Except.error e1 →
      env.fetchResults (sanitize_input q) 3 = Except.error e2 →
      process_question env q uid = RESP_unknown) := by
  refine ⟨?_, ?_, ?_, ?_⟩
  · intro env query n e h
    unfold search_web
    rw [h]
  · intro env q uid e h
    unfold process_question
    rw [h]
  · intro env q uid hv hlim hcl hne ⟨e, he⟩
    unfold process_question
    rw [processBody_factual hv hlim hcl]
    unfold factualPath
    have hemp : (get_snippets env (sanitize_input q) TOP_K).isEmpty = false := by
      cases hd : get_snippets env (sanitize_input q) TOP_K with
      | nil => exact absurd hd hne
      | cons a t => rfl
    simp only [hemp, Bool.false_eq_true, if_false, he]
  · intro env q uid e1 e2 hv hlim hcl hsim hfetch
    unfold process_question
    rw [processBody_factual hv hlim hcl]
    unfold factualPath
    have hsnip : get_snippets env (sanitize_input q) TOP_K = [] := by
      unfold get_snippets
      rw [hsim]
    have hstr : get_snippets_str env (sanitize_input q) TOP_K = NO_INFO_MSG := by
      unfold get_snippets_str
      rw [hsnip]
      have hweb : search_web env (sanitize_input q) 3 = [] := by
        unfold search_web
        rw [hfetch]
      rw [hweb]
      rfl
    have hhttp : strContains NO_INFO_MSG "http" = false := by decide
    simp only [hsnip, hstr, List.isEmpty_nil, if_true, hhttp,
      Bool.false_eq_true, if_false]

/-- Witness for C1: the failing-fetch conjunct at a concrete environment
and the generation-failure conjunct at an environment with one retrieved
document and a raising model. -/
theorem process_question_error_containment_witness :
    search_web envAllFail "query" 3 = [] ∧
    process_question envLlmFail "tell me" "u" = RESP_error :=
  ⟨process_question_error_containment.1 envAllFail "query" 3 PyErr.exn rfl,
   process_question_error_containment.2.2.1 envLlmFail "tell me" "u"
     (by decide) rfl (by decide) (by decide) ⟨PyErr.exn, rfl⟩⟩

/-! ## Claim C10 -/

/-- C10: the emptiness/length validation of process_question runs on the
raw question before sanitization.  Every non-empty question of at most
500 characters made of angle brackets only passes validation, sanitizes
to the empty string, classifies as factual, and, when not rate limited,
the call proceeds to the retrieval path on the empty question — the
invalid-input branch is not taken (a rate-limited call yields the
rate-limit response, likewise not the invalid-input one). -/
theorem process_question_angle_brackets (env : Env) (q uid : String)
    (h1 : q ≠ "") (h2 : q.length ≤ 500)
    (h3 : ∀ c ∈ q.data, c = '<' ∨ c = '>') :
    sanitize_input q = "" ∧
    classifyIntent (pyStripStr (pyLowerStr (sanitize_input q)))
      = Intent.factual ∧
    (env.limited = false →
      process_question env q uid = factualResult env "") ∧
    (env.limited = true → process_question env q uid = RESP_rate_limit) := by
  have hsan : sanitize_input q = "" := by
    unfold sanitize_input
    have hfil : q.data.filter (fun c => ¬ (c == '<' || c == '>')) = [] := by
      apply List.filter_eq_nil_iff.mpr
      intro a ha
      rcases h3 a ha with h | h <;> simp [h]
    rw [hfil]
    rfl
  have hcl : classifyIntent (pyStripStr (pyLowerStr (sanitize_input q)))
      = Intent.factual := by
    rw [hsan]
    decide
  have hv : ¬ (q = "" ∨ 500 < q.length) := by
    intro h
    rcases h with h | h
    · exact h1 h
    · omega
  refine ⟨hsan, hcl, ?_, ?_⟩
  · intro hlim
    unfold process_question
    rw [processBody_factual hv hlim hcl, hsan]
    rfl
  · intro hlim
    unfold process_question processBody
    rw [if_neg hv, hlim]
    rfl

/-- Witness for C10 at the concrete input of four angle brackets. -/
theorem process_question_angle_brackets_witness :
    sanitize_input "<><>" = "" ∧
    process_question envAllFail "<><>" "u" = factualResult envAllFail "" :=
  ⟨(process_question_angle_brackets envAllFail "<><>" "u" (by decide)
      (by decide) (by decide)).1,
   (process_question_angle_brackets envAllFail "<><>" "u" (by decide)
      (by decide) (by decide)).2.2.1 rfl⟩

/-! ## Claim C4 -/

theorem map_decide_le_replicate_true {limit n base : ℕ} (h : limit ≤ base) :
    (List.range n).map (fun i => decide (limit ≤ base + i))
      = List.replicate n true := by
  apply List.eq_replicate_iff.mpr
  refine ⟨by simp, ?_⟩
  intro b hb
  simp only [List.mem_map, List.mem_range] at hb
  obtain ⟨i, _, hfi⟩ := hb
  rw [← hfi]
  simp
  omega

theorem rateCalls_burst (limit : ℕ) :
    ∀ (ts hist : List ℤ),
      (∀ t ∈ ts, ∀ u ∈ hist ++ ts, t - u < 60) →
      rateCalls limit ts hist
        = ((List.range ts.length).map
            (fun i => decide (limit ≤ hist.length + i)),
           hist ++ ts.take (limit - hist.length)) := by
  intro ts
  induction ts with
  | nil =>
    intro hist _
    simp [rateCalls]
  | cons t rest ih =>
    intro hist hwin
    have hfil : hist.filter (fun u => decide (t - u < 60)) = hist := by
      apply List.filter_eq_self.mpr
      intro a ha
      have := hwin t (List.mem_cons_self t rest) a
        (List.mem_append_left _ ha)
      simpa using this
    have hone : rateCalls limit (t :: rest) hist
        = ((is_rate_limitedWith limit t hist).1
            :: (rateCalls limit rest (is_rate_limitedWith limit t hist).2).1,
           (rateCalls limit rest (is_rate_limitedWith limit t hist).2).2) := by
      rfl
    by_cases hlim : limit ≤ hist.length
    · have hstep : is_rate_limitedWith limit t hist = (true, hist) := by
        unfold is_rate_limitedWith
        simp only [hfil]
        simp [hlim]
      rw [hone, hstep]
      have hrest : rateCalls limit rest hist
          = ((List.range rest.length).map
              (fun i => decide (limit ≤ hist.length + i)),
             hist ++ rest.take (limit - hist.length)) := by
        apply ih
        intro a ha u hu
        refine hwin a (List.mem_cons.mpr (Or.inr ha)) u ?_
        rcases List.mem_append.mp hu with h | h
        · exact List.mem_append_left _ h
        · exact List.mem_append_right _ (List.mem_cons.mpr (Or.inr h))
      rw [hrest]
      have hz : limit - hist.length = 0 := Nat.sub_eq_zero_of_le hlim
      rw [hz]
      simp only [List.take_zero, List.append_nil]
      rw [map_decide_le_replicate_true hlim, map_decide_le_replicate_true hlim]
      have : decide (limit ≤ hist.length + 0) = true := by simp; omega
      simp [List.replicate_succ]
    · have hstep : is_rate_limitedWith limit t hist = (false, hist ++ [t]) := by
        unfold is_rate_limitedWith
        simp only [hfil]
        simp [hlim]
      rw [hone, hstep]
      have hrest : rateCalls limit rest (hist ++ [t])
          = ((List.range rest.length).map
              (fun i => decide (limit ≤ (hist ++ [t]).length + i)),
             (hist ++ [t]) ++ rest.take (limit - (hist ++ [t]).length)) := by
        apply ih
        intro a ha u hu
        refine hwin a (List.mem_cons.mpr (Or.inr ha)) u ?_
        rcases List.mem_append.mp hu with h | h
        · rcases List.mem_append.mp h with h2 | h2
          · exact List.mem_append_left _ h2
          · simp at h2
            rw [h2]
            exact List.mem_append_right _ (List.mem_cons_self t rest)
        · exact List.mem_append_right _ (List.mem_cons.mpr (Or.inr h))
      rw [hrest]
      have hlen1 : (hist ++ [t]).length = hist.length + 1 := by simp
      rw [hlen1]
      obtain ⟨k, hk⟩ : ∃ k, limit - hist.length = k + 1 := by
        refine ⟨limit - hist.length - 1, ?_⟩
        omega
      have hk2 : limit - (hist.length + 1) = k := by omega
      have hflags : (List.range (t :: rest).length).map
          (fun i => decide (limit ≤ hist.length + i))
          = false :: (List.range rest.length).map
              (fun i => decide (limit ≤ hist.length + 1 + i)) := by
        show (List.range (rest.length + 1)).map
          (fun i => decide (limit ≤ hist.length + i)) = _
        rw [List.range_succ_eq_map, List.map_cons, List.map_map]
        have h0 : decide (limit ≤ hist.length + 0) = false := by
          simp
          omega
        rw [h0]
        have hfun : ((fun i => decide (limit ≤ hist.length + i)) ∘ Nat.succ)
            = (fun i : ℕ => decide (limit ≤ hist.length + 1 + i)) := by
          funext i
          show decide (limit ≤ hist.length + (i + 1))
            = decide (limit ≤ hist.length + 1 + i)
          exact decide_eq_decide.mpr (by omega)
        rw [hfun]
      rw [hflags]
      have hhist : hist ++ (t :: rest).take (limit - hist.length)
          = (hist ++ [t]) ++ rest.take k := by
        rw [hk, List.take_succ_cons, List.append_assoc]
        rfl
      rw [hhist, hk2]

/-- C4: rate limiter contract.  For any limit L > 0 (the source
configures L = RATE_LIMIT = 10), a burst of L + 1 calls whose timestamps
all lie within the 60-second window has exactly the first L calls
allowed, each recording its timestamp, and the (L + 1)-th call rejected
with no timestamp recorded; a later call made once every burst timestamp
is at least 60 seconds old is allowed again. -/
theorem rate_limiter_contract (L : ℕ) (hL : 0 < L) (ts : List ℤ)
    (hlen : ts.length = L + 1) (hwin : ∀ t ∈ ts, ∀ u ∈ ts, t - u < 60)
    (t2 : ℤ) (hrec : ∀ u ∈ ts, 60 ≤ t2 - u) :
    (rateCalls L ts []).1 = List.replicate L false ++ [true] ∧
    (rateCalls L ts []).2 = ts.take L ∧
    (is_rate_limitedWith L t2 (rateCalls L ts []).2).1 = false := by
  have hburst := rateCalls_burst L ts [] (by simpa using hwin)
  have hflags : (rateCalls L ts []).1
      = List.replicate L false ++ [true] := by
    rw [hburst]
    show (List.range ts.length).map (fun i => decide (L ≤ 0 + i)) = _
    rw [hlen, List.range_succ, List.map_append]
    have hlast : [L].map (fun i => decide (L ≤ 0 + i)) = [true] := by
      simp
    rw [hlast]
    have hfirst : (List.range L).map (fun i => decide (L ≤ 0 + i))
        = List.replicate L false := by
      apply List.eq_replicate_iff.mpr
      refine ⟨by simp, ?_⟩
      intro b hb
      simp only [List.mem_map, List.mem_range] at hb
      obtain ⟨i, hi, hfi⟩ := hb
      rw [← hfi]
      simp
      omega
    rw [hfirst]
  have hhist : (rateCalls L ts []).2 = ts.take L := by
    rw [hburst]
    simp
  refine ⟨hflags, hhist, ?_⟩
  rw [hhist]
  unfold is_rate_limitedWith
  have hfil : (ts.take L).filter (fun t => decide (t2 - t < 60)) = [] := by
    apply List.filter_eq_nil_iff.mpr
    intro u hu
    have hu2 : u ∈ ts := List.take_subset L ts hu
    have := hrec u hu2
    simp
    omega
  simp only [hfil]
  simp [Nat.pos_iff_ne_zero.mp hL]

/-- Witness for C4 with the configured limit 10: a burst of eleven calls
at one instant, then a call sixty seconds later. -/
theorem rate_limiter_contract_witness :
    (rateCalls RATE_LIMIT (List.replicate 11 0) []).1
      = List.replicate 10 false ++ [true] ∧
    (is_rate_limitedWith RATE_LIMIT 60
      (rateCalls RATE_LIMIT (List.replicate 11 0) []).2).1 = false :=
  ⟨(rate_limiter_contract 10 (by decide) (List.replicate 11 0) (by decide)
      (by decide) 60 (by decide)).1,
   (rate_limiter_contract 10 (by decide) (List.replicate 11 0) (by decide)
      (by decide) 60 (by decide)).2.2⟩

/-! ## Claim C8 -/

/-- Last n elements of a list. -/
def lastN {α : Type} (n : ℕ) (l : List α) : List α :=
  l.drop (l.length - n)

theorem lastN_of_le {α : Type} {n : ℕ} {l : List α} (h : l.length ≤ n) :
    lastN n l = l := by
  unfold lastN
  rw [Nat.sub_eq_zero_of_le h, List.drop_zero]

theorem lastN_cons_of_le {α : Type} {n : ℕ} {l : List α} {a : α}
    (h : n ≤ l.length) : lastN n (a :: l) = lastN n l := by
  unfold lastN
  have : (a :: l).length - n = (l.length - n) + 1 := by simp; omega
  rw [this, List.drop_succ_cons]

theorem lastN_length {α : Type} (n : ℕ) (l : List α) :
    (lastN n l).length = min n l.length := by
  unfold lastN
  rw [List.length_drop]
  omega

/-- Entry of the association-list cache produced by inserting one
(timestamp, text, vector) item. -/
def asEntry (it : ℤ × String × EmbVec) : String × ℤ × EmbVec :=
  (it.2.1, it.1, it.2.2)

theorem cacheSet_append {c : EmbCache} {k : String} {t : ℤ} {v : EmbVec}
    (h : ∀ e ∈ c, e.1 ≠ k) : cacheSet c k t v = c ++ [(k, t, v)] := by
  unfold cacheSet
  have : c.any (fun e => e.1 == k) = false := by
    apply List.any_eq_false.mpr
    intro e he
    simp [h e he]
  rw [this]
  simp

theorem cleanup_cacheWith_no_evict {maxSize : ℕ} {c : EmbCache}
    (h : ¬ maxSize < c.length) : cleanup_cacheWith maxSize c = c := by
  unfold cleanup_cacheWith
  rw [if_neg h]

theorem cleanup_cacheWith_evict_one {maxSize : ℕ} (e0 : String × ℤ × EmbVec)
    (c' : List (String × ℤ × EmbVec)) (e : String × ℤ × EmbVec)
    (hlen : (e0 :: c').length = maxSize)
    (hsorted : List.Pairwise tsLE ((e0 :: c') ++ [e]))
    (hkeys : (((e0 :: c') ++ [e]).map (fun x => x.1)).Nodup) :
    cleanup_cacheWith maxSize ((e0 :: c') ++ [e]) = c' ++ [e] := by
  unfold cleanup_cacheWith
  have hcond : maxSize < ((e0 :: c') ++ [e]).length := by
    simp at hlen ⊢
    omega
  rw [if_pos hcond]
  have hsort_eq : ((e0 :: c') ++ [e]).insertionSort tsLE = (e0 :: c') ++ [e] :=
    List.Sorted.insertionSort_eq hsorted
  have hlen2 : ((e0 :: c') ++ [e]).length - maxSize = 1 := by
    simp at hlen ⊢
    omega
  simp only [hsort_eq, hlen2]
  have htake : ((e0 :: c') ++ [e]).take 1 = [e0] := by
    rw [List.cons_append]
    rfl
  rw [htake]
  have he0 : e0.1 ∉ (c' ++ [e]).map (fun x => x.1) := by
    have := hkeys
    rw [List.cons_append, List.map_cons] at this
    exact (List.nodup_cons.mp this).1
  rw [List.cons_append, List.filter_cons_of_neg (by simp)]
  apply List.filter_eq_self.mpr
  intro a ha
  have hne : a.1 ≠ e0.1 := by
    intro heq
    apply he0
    rw [← heq]
    exact List.mem_map_of_mem (fun x => x.1) ha
  simp [hne]

theorem cacheInsertSeq_eq (maxSize : ℕ) (hmax : 0 < maxSize) :
    ∀ (items : List (ℤ × String × EmbVec)) (c : EmbCache),
      c.length ≤ maxSize →
      List.Pairwise tsLE c →
      ((c.map (fun e => e.1)) ++ (items.map (fun it => it.2.1))).Nodup →
      (∀ e ∈ c, ∀ it ∈ items, e.2.1 ≤ it.1) →
      List.Pairwise (fun a b => a.1 ≤ b.1) items →
      cacheInsertSeq maxSize items c = lastN maxSize (c ++ items.map asEntry) := by
  intro items
  induction items with
  | nil =>
    intro c hlen _ _ _ _
    show c = lastN maxSize (c ++ [])
    rw [List.append_nil, lastN_of_le hlen]
  | cons it rest ih =>
    intro c hlen hpw hnd hts hitems
    obtain ⟨t, k, v⟩ := it
    have hstep : cacheInsertSeq maxSize ((t, k, v) :: rest) c
        = cacheInsertSeq maxSize rest (cache_embeddingWith maxSize t c k v) :=
      rfl
    have hknotin : ∀ e ∈ c, e.1 ≠ k := by
      intro e he heq
      rw [List.nodup_append] at hnd
      refine hnd.2.2 (List.mem_map_of_mem _ he) ?_
      rw [heq]
      show k ∈ ((t, k, v) :: rest).map (fun x => x.2.1)
      exact List.mem_cons_self _ _
    have hset : cacheSet c k t v = c ++ [(k, t, v)] := cacheSet_append hknotin
    have hsortedApp : List.Pairwise tsLE (c ++ [(k, t, v)]) := by
      rw [List.pairwise_append]
      refine ⟨hpw, List.pairwise_singleton _ _, ?_⟩
      intro a ha b hb
      simp only [List.mem_singleton] at hb
      rw [hb]
      exact hts a ha (t, k, v) (List.mem_cons_self _ _)
    have htrest : ∀ it2 ∈ rest, t ≤ it2.1 :=
      (List.pairwise_cons.mp hitems).1
    have htsNew : ∀ e ∈ c ++ [(k, t, v)], ∀ it2 ∈ rest, e.2.1 ≤ it2.1 := by
      intro e he it2 hit2
      rcases List.mem_append.mp he with h | h
      · exact hts e h it2 (List.mem_cons.mpr (Or.inr hit2))
      · simp only [List.mem_singleton] at h
        rw [h]
        exact htrest it2 hit2
    have hndNew : (((c ++ [(k, t, v)]).map (fun e => e.1))
        ++ rest.map (fun it2 => it2.2.1)).Nodup := by
      rw [List.map_append, List.append_assoc]
      exact hnd
    by_cases hcap : c.length + 1 ≤ maxSize
    · have hclean : cache_embeddingWith maxSize t c k v = c ++ [(k, t, v)] := by
        unfold cache_embeddingWith
        rw [hset]
        apply cleanup_cacheWith_no_evict
        simp only [List.length_append, List.length_singleton]
        omega
      rw [hstep, hclean,
        ih (c ++ [(k, t, v)]) (by simp; omega) hsortedApp hndNew htsNew
          (List.Pairwise.of_cons hitems)]
      rw [List.append_assoc]
      rfl
    · have hceq : c.length = maxSize := by omega
      obtain ⟨e0, c', rfl⟩ : ∃ e0 c', c = e0 :: c' := by
        cases c with
        | nil =>
          simp at hceq
          omega
        | cons a b => exact ⟨a, b, rfl⟩
      have hkeysFull : (((e0 :: c') ++ [(k, t, v)]).map (fun x => x.1)).Nodup := by
        have hsub : List.Sublist (((e0 :: c') ++ [(k, t, v)]).map (fun x => x.1))
            (((e0 :: c').map (fun e => e.1))
              ++ ((t, k, v) :: rest).map (fun it2 => it2.2.1)) := by
          rw [List.map_append]
          apply List.Sublist.append_left
          simp only [List.map_cons, List.map_nil]
          exact List.cons_sublist_cons.mpr (List.nil_sublist _)
        exact hnd.sublist hsub
      have hclean : cache_embeddingWith maxSize t (e0 :: c') k v
          = c' ++ [(k, t, v)] := by
        unfold cache_embeddingWith
        rw [hset]
        exact cleanup_cacheWith_evict_one e0 c' (k, t, v) hceq hsortedApp hkeysFull
      have hpwNew : List.Pairwise tsLE (c' ++ [(k, t, v)]) := by
        rw [List.cons_append] at hsortedApp
        exact List.Pairwise.of_cons hsortedApp
      have hndNew2 : (((c' ++ [(k, t, v)]).map (fun e => e.1))
          ++ rest.map (fun it2 => it2.2.1)).Nodup := by
        rw [List.map_append, List.append_assoc]
        have : ((e0 :: c').map (fun e => e.1)
            ++ ((t, k, v) :: rest).map (fun it2 => it2.2.1)).Nodup := hnd
        rw [List.map_cons, List.cons_append] at this
        have h2 := List.Nodup.of_cons this
        show (c'.map (fun e => e.1)
          ++ ([(k, t, v)].map (fun e => e.1)
            ++ rest.map (fun it2 => it2.2.1))).Nodup
        simpa using h2
      have htsNew2 : ∀ e ∈ c' ++ [(k, t, v)], ∀ it2 ∈ rest, e.2.1 ≤ it2.1 := by
        intro e he it2 hit2
        apply htsNew e _ it2 hit2
        rw [List.cons_append]
        exact List.mem_cons.mpr (Or.inr he)
      have hlenNew : (c' ++ [(k, t, v)]).length ≤ maxSize := by
        simp at hceq ⊢
        omega
      rw [hstep, hclean,
        ih (c' ++ [(k, t, v)]) hlenNew hpwNew hndNew2 htsNew2
          (List.Pairwise.of_cons hitems)]
      have hshape : (e0 :: c') ++ ((t, k, v) :: rest).map asEntry
          = e0 :: ((c' ++ [(k, t, v)]) ++ rest.map asEntry) := by
        simp [asEntry]
      rw [hshape, lastN_cons_of_le]
      simp at hceq ⊢
      omega

/-- C8: embedding cache invariants.  A get hit occurs exactly when the
text is present with age strictly below the TTL; an expired entry is
deleted on access; and a sequence of more than maxSize insertions of
distinct texts at nondecreasing timestamps into the empty cache leaves
exactly maxSize entries, the most recently inserted ones (cache_embedding
is cache_embeddingWith at the configured MAX_CACHE_SIZE = 1000). -/
theorem embedding_cache_contract :
    (∀ (now : ℤ) (c : EmbCache) (text : String) (v : EmbVec),
      (get_cached_embedding now c text).1 = some v ↔
        ∃ ts, cacheFind c text = some (ts, v) ∧ now - ts < CACHE_TTL) ∧
    (∀ (now : ℤ) (c : EmbCache) (text : String) (ts : ℤ) (v : EmbVec),
      cacheFind c text = some (ts, v) → CACHE_TTL ≤ now - ts →
      get_cached_embedding now c text
        = (none, c.eraseP (fun e => e.1 == text))) ∧
    (∀ (maxSize : ℕ) (items : List (ℤ × String × EmbVec)),
      0 < maxSize → maxSize < items.length →
      (items.map (fun it => it.2.1)).Nodup →
      List.Pairwise (fun a b => a.1 ≤ b.1) items →
      cacheInsertSeq maxSize items [] = lastN maxSize (items.map asEntry) ∧
      (cacheInsertSeq maxSize items []).length = maxSize) := by
  refine ⟨?_, ?_, ?_⟩
  · intro now c text v
    unfold get_cached_embedding
    cases hf : cacheFind c text with
    | none =>
      simp
    | some p =>
      obtain ⟨ts0, emb⟩ := p
      by_cases hT : now - ts0 < CACHE_TTL
      · simp only [hT, if_true]
        constructor
        · intro h
          simp at h
          exact ⟨ts0, by rw [h], hT⟩
        · intro ⟨ts1, h1, _⟩
          injection h1 with h1
          simp [Prod.ext_iff] at h1
          simp [h1.2]
      · simp only [hT, if_false]
        constructor
        · intro h
          simp at h
        · intro ⟨ts1, h1, h2⟩
          injection h1 with h1
          rw [Prod.ext_iff] at h1
          obtain ⟨h1a, h1b⟩ := h1
          simp only at h1a
          rw [h1a] at hT
          exact absurd h2 hT
  · intro now c text ts v hf hT
    unfold get_cached_embedding
    rw [hf]
    have hnl : ¬ now - ts < CACHE_TTL := by omega
    simp [hnl]
  · intro maxSize items hmax hlen hnd hpw
    have h := cacheInsertSeq_eq maxSize hmax items [] (by simp)
      List.Pairwise.nil (by simpa using hnd) (by simp) hpw
    rw [List.nil_append] at h
    refine ⟨h, ?_⟩
    rw [h, lastN_length, List.length_map]
    omega

/-- Witness for C8: a TTL-expired access deletes the entry, and three
distinct insertions with capacity two retain the last two. -/
theorem embedding_cache_contract_witness :
    get_cached_embedding 3600 [("a", 0, [mkRat 1 1])] "a"
      = (none, ([("a", 0, [mkRat 1 1])] : EmbCache).eraseP
          (fun e => e.1 == "a")) ∧
    cacheInsertSeq 2 [(0, "a", [mkRat 1 1]), (1, "b", [mkRat 2 1]),
        (2, "c", [mkRat 3 1])] []
      = lastN 2 ([(0, "a", [mkRat 1 1]), (1, "b", [mkRat 2 1]),
          (2, "c", [mkRat 3 1])].map asEntry) :=
  ⟨embedding_cache_contract.2.1 3600 [("a", 0, [mkRat 1 1])] "a" 0
      [mkRat 1 1] (by decide) (by decide),
   (embedding_cache_contract.2.2 2
      [(0, "a", [mkRat 1 1]), (1, "b", [mkRat 2 1]), (2, "c", [mkRat 3 1])]
      (by decide) (by decide) (by decide) (by decide)).1⟩
